import Mathlib

/-!
Verification of the jsonic JSON decoder.

The development shallowly embeds the Rust sources:
* `src/json_element.rs` — the value tree (`JsonElement`, `Slice`, accessors,
  the `Index` implementations and the `EMPTY_ELEMENT` sentinel);
* `src/lib.rs` — the cursor parser (`Parser::parse` and its productions).

Conventions of the embedding:
* the input text is a list of byte values (`List Nat`); reading a byte at the
  cursor is `byteAt`, which mirrors the pointer read (every real read is
  guarded by the same length tests as the source);
* machine integers are `Nat`/`Int`; where the source can overflow
  (`usize` accumulation, `i128::overflowing_mul`) the wrap / overflow test is
  written out explicitly;
* `f64` values are modelled as exact rationals (`ℚ`): the entries of
  `EXP_MATRIX` become exact powers of ten.  No claim below depends on float
  rounding, only on which value is produced structurally;
* fallible code returns `Except PErr`; the out-of-bounds indexing of
  `EXP_MATRIX` (a Rust panic) is the distinguished error `PErr.panicOOB`;
  every loop runs on explicit fuel, one unit per iteration, so that the
  functions reduce by computation; exhausting the fuel is the distinguished
  error `PErr.outOfFuel`, never conflated with a parse failure
  `PErr.jsonErr`.  Every single-cursor loop is bounded by the input length
  and receives fuel `src.length + 1`, which cannot run out; the shared fuel
  of the mutually recursive container productions, `2 * src.length + 2`,
  likewise dominates their total iteration count on any input.
-/

set_option maxRecDepth 8000

namespace Jsonic

/-- Type tags of the value tree, mirroring `JsonType` (json_element.rs). -/
inductive JsonType where
  | JsonNull
  | JsonBoolean
  | JsonString
  | JsonNumber
  | JsonObject
  | JsonArray
  | JsonEmpty
deriving DecidableEq

/-- `NumberType` from the sources: tag distinguishing integer literals. -/
inductive NumberType where
  | Integer
  | Float
deriving DecidableEq

/-- A borrowed byte range into the source buffer (`Slice`).  The parser's
slices carry only `(beginning, end)`; the buffer they point into is the
parser's own source, which the embedding stores in the `source` field so that
string extraction is self-contained. -/
structure Slice where
  source : List Nat
  beginning : Nat
  ending : Nat
deriving DecidableEq

/-- String extraction from a slice: the bytes `source[beginning..ending]`
(`Parser::extract_str` / `Slice::as_str`). -/
def Slice.str (s : Slice) : List Nat :=
  (s.source.drop s.beginning).take (s.ending - s.beginning)

/-- `Number` from the sources: exact `i128` mantissa (`Int` here), the derived
`f64` (modelled as an exact `ℚ`), and the detected type tag. -/
structure Number where
  num_i128 : Int
  num_f64 : ℚ
  detected_type : NumberType

/-- The tagged value tree (`JsonElement`): a type tag, the originating slice,
and the variant payloads.  Object maps are association lists from key bytes to
elements (the source uses a hash map; only lookup/insert semantics matter). -/
inductive JsonElement where
  | mk
    (json_type : JsonType)
    (slice : Slice)
    (boolean : Option Bool)
    (number : Option Number)
    (object : Option (List (List Nat × JsonElement)))
    (array : Option (List JsonElement))

def JsonElement.json_type : JsonElement → JsonType
  | .mk t _ _ _ _ _ => t

def JsonElement.slice : JsonElement → Slice
  | .mk _ s _ _ _ _ => s

def JsonElement.boolean : JsonElement → Option Bool
  | .mk _ _ b _ _ _ => b

def JsonElement.number : JsonElement → Option Number
  | .mk _ _ _ n _ _ => n

def JsonElement.object : JsonElement → Option (List (List Nat × JsonElement))
  | .mk _ _ _ _ o _ => o

def JsonElement.array : JsonElement → Option (List JsonElement)
  | .mk _ _ _ _ _ a => a

/-- `JsonElement::from_null`. -/
def JsonElement.from_null (s : Slice) : JsonElement :=
  .mk .JsonNull s none none none none

/-- `JsonElement::from_boolean`. -/
def JsonElement.from_boolean (b : Bool) (s : Slice) : JsonElement :=
  .mk .JsonBoolean s (some b) none none none

/-- `JsonElement::from_string` / `from_type(JsonType::JsonString, _)`. -/
def JsonElement.from_string (s : Slice) : JsonElement :=
  .mk .JsonString s none none none none

/-- `JsonElement::from_number`. -/
def JsonElement.from_number (n : Number) (s : Slice) : JsonElement :=
  .mk .JsonNumber s none (some n) none none

/-- `JsonElement::from_object`. -/
def JsonElement.from_object (o : List (List Nat × JsonElement)) (s : Slice) : JsonElement :=
  .mk .JsonObject s none none (some o) none

/-- `JsonElement::from_array`. -/
def JsonElement.from_array (a : List JsonElement) (s : Slice) : JsonElement :=
  .mk .JsonArray s none none none (some a)

/-- The `EMPTY_ELEMENT` sentinel (`JsonElement::empty()`). -/
def JsonElement.empty : JsonElement :=
  .mk .JsonEmpty ⟨[], 0, 0⟩ none none none none

/-- `JsonElement::exists`: true iff the type tag differs from `JsonEmpty`. -/
def JsonElement.exists_ (e : JsonElement) : Bool :=
  e.json_type != .JsonEmpty

/-- `JsonElement::as_str`: `None` on the empty variant, otherwise the slice
text. -/
def JsonElement.as_str (e : JsonElement) : Option (List Nat) :=
  match e.json_type with
  | .JsonEmpty => none
  | _ => some e.slice.str

/-- `JsonElement::as_i128`: present only on the number variant.  The source
unwraps `self.number`, which is `Some` for every number built by the
constructors; the embedding uses a default for the (unreachable) `None`. -/
def JsonElement.as_i128 (e : JsonElement) : Option Int :=
  match e.json_type with
  | .JsonNumber => some ((e.number.getD ⟨0, 0, .Integer⟩).num_i128)
  | _ => none

/-- `JsonElement::as_f64`: present only on the number variant. -/
def JsonElement.as_f64 (e : JsonElement) : Option ℚ :=
  match e.json_type with
  | .JsonNumber => some ((e.number.getD ⟨0, 0, .Integer⟩).num_f64)
  | _ => none

/-- `HashMap::get` on the object map, as association-list lookup. -/
def mapGet (m : List (List Nat × JsonElement)) (k : List Nat) : Option JsonElement :=
  (m.find? (fun p => p.1 == k)).map (fun p => p.2)

/-- `HashMap::insert` on the object map: replaces any existing binding. -/
def mapInsert (m : List (List Nat × JsonElement)) (k : List Nat) (v : JsonElement) :
    List (List Nat × JsonElement) :=
  m.filter (fun p => p.1 != k) ++ [(k, v)]

/-- `Index<&str> for JsonElement`: on an object, map lookup with the
`EMPTY_ELEMENT` default; on anything else the sentinel.  The source unwraps
`self.object`, `Some` for every element tagged `JsonObject` by construction;
the embedding uses an empty-map default for the (unreachable) `None`. -/
def JsonElement.indexKey (e : JsonElement) (k : List Nat) : JsonElement :=
  match e.json_type with
  | .JsonObject => (mapGet (e.object.getD []) k).getD .empty
  | _ => .empty

/-- `Index<usize> for JsonElement`: on an array, `vec.get` with the
`EMPTY_ELEMENT` default; on anything else the sentinel. -/
def JsonElement.indexNat (e : JsonElement) (n : Nat) : JsonElement :=
  match e.json_type with
  | .JsonArray => ((e.array.getD []).get? n).getD .empty
  | _ => .empty

/-- One step of chained access: a key lookup or an index lookup. -/
inductive Lookup where
  | key (k : List Nat)
  | idx (n : Nat)

def lookupOne (e : JsonElement) : Lookup → JsonElement
  | .key k => e.indexKey k
  | .idx n => e.indexNat n

/-- A chain of `[key]`/`[idx]` accesses applied left to right. -/
def lookupPath (e : JsonElement) (p : List Lookup) : JsonElement :=
  p.foldl lookupOne e

/-! ## The parser (src/lib.rs) -/

/-- Parser outcomes that are not a constructed value: a parse failure carrying
the byte offset (`JsonError`), the out-of-bounds panic of the `EXP_MATRIX`
lookup, or exhaustion of the embedding's recursion fuel. -/
inductive PErr where
  | jsonErr (index : Nat)
  | panicOOB
  | outOfFuel
deriving DecidableEq

abbrev PRes (α : Type) := Except PErr α

def PRes.isOk {α : Type} : PRes α → Bool
  | .ok _ => true
  | .error _ => false

/-- Reading the byte at the cursor (`read_byte` / `read_offset_byte`).  Every
use in the source is guarded by a length test, mirrored in the embedding, so
the default never shapes an outcome. -/
def byteAt (src : List Nat) (i : Nat) : Nat :=
  src.getD i 0

/-- The `EXP_MATRIX` lookup `EXP_MATRIX[shift][number]`: two 65-entry rows of
powers of ten (`1e0..1e64` and `1e-0..1e-64`, modelled exactly); indexing out
of range is the Rust panic. -/
def expMatrix (shift number : Nat) : PRes ℚ :=
  if shift < 2 ∧ number < 65 then
    .ok (if shift = 0 then (10 : ℚ) ^ number else ((1 : ℚ) / 10) ^ number)
  else
    .error .panicOOB

/-- `Parser::parse_null`: after the `n`, the next three bytes must be the
packed `ull`. -/
def parseNull (src : List Nat) (i : Nat) : PRes (JsonElement × Nat) :=
  let mark := i
  if i + 1 + 2 < src.length then
    if byteAt src (i + 1) * 65536 + byteAt src (i + 2) * 256 + byteAt src (i + 3)
        = 117 * 65536 + 108 * 256 + 108 then
      .ok (JsonElement.from_null ⟨src, mark, i + 4⟩, i + 4)
    else
      .error (.jsonErr (i + 1))
  else
    .error (.jsonErr (i + 1))

/-- `Parser::parse_true`: after the `t`, the packed `rue`. -/
def parseTrue (src : List Nat) (i : Nat) : PRes (JsonElement × Nat) :=
  let mark := i
  if i + 1 + 2 < src.length then
    if byteAt src (i + 1) * 65536 + byteAt src (i + 2) * 256 + byteAt src (i + 3)
        = 114 * 65536 + 117 * 256 + 101 then
      .ok (JsonElement.from_boolean true ⟨src, mark, i + 4⟩, i + 4)
    else
      .error (.jsonErr (i + 1))
  else
    .error (.jsonErr (i + 1))

/-- `Parser::parse_false`: after the `f`, the packed `alse`. -/
def parseFalse (src : List Nat) (i : Nat) : PRes (JsonElement × Nat) :=
  let mark := i
  if i + 1 + 3 < src.length then
    if byteAt src (i + 1) * 16777216 + byteAt src (i + 2) * 65536
        + byteAt src (i + 3) * 256 + byteAt src (i + 4)
        = 97 * 16777216 + 108 * 65536 + 115 * 256 + 101 then
      .ok (JsonElement.from_boolean false ⟨src, mark, i + 5⟩, i + 5)
    else
      .error (.jsonErr (i + 1))
  else
    .error (.jsonErr (i + 1))

/-- The loop of `Parser::parse_exponent`: `-` sets the negative-row flag,
digits accumulate into a `usize` (wrapping, as in release builds), any other
byte triggers the table lookup; end of input is a failure. -/
def parseExponentLoop (src : List Nat) : Nat → Nat → Nat → Nat → PRes (ℚ × Nat)
  | 0, _, _, _ => .error .outOfFuel
  | fuel + 1, number, shift, i =>
    if i < src.length then
      if byteAt src i = 45 then
        parseExponentLoop src fuel number 1 (i + 1)
      else if 48 ≤ byteAt src i ∧ byteAt src i ≤ 57 then
        parseExponentLoop src fuel ((number * 10 + (byteAt src i - 48)) % 2 ^ 64) shift (i + 1)
      else
        (expMatrix shift number).map (fun q => (q, i))
    else
      .error (.jsonErr i)

/-- `Parser::parse_exponent`: skip the `e`/`E`, then run the loop. -/
def parseExponent (src : List Nat) (i : Nat) : PRes (ℚ × Nat) :=
  parseExponentLoop src (src.length + 1) 0 0 (i + 1)

/-- `Parser::parse_digits`: accumulate decimal digits into an `i128`.  On
`overflowing_mul` the source only logs and keeps the old accumulator (the
digit is dropped); a digit run reaching end of input is a failure. -/
def parseDigitsLoop (src : List Nat) : Nat → Int → Nat → PRes (Int × Nat)
  | 0, _, _ => .error .outOfFuel
  | fuel + 1, num, i =>
    if i < src.length then
      if 48 ≤ byteAt src i ∧ byteAt src i ≤ 57 then
        if num * 10 < -(2 ^ 127) ∨ 2 ^ 127 ≤ num * 10 then
          parseDigitsLoop src fuel num (i + 1)
        else
          parseDigitsLoop src fuel (num * 10 + ((byteAt src i : Int) - 48)) (i + 1)
      else
        .ok (num, i)
    else
      .error (.jsonErr i)

/-- The call `self.parse_digits()` at cursor `i`. -/
def parseDigits (src : List Nat) (i : Nat) : PRes (Int × Nat) :=
  parseDigitsLoop src (src.length + 1) 0 i

theorem parseDigitsLoop_le (src : List Nat) :
    ∀ fuel (num : Int) (i : Nat) n j,
      parseDigitsLoop src fuel num i = .ok (n, j) → i ≤ j := by
  intro fuel
  induction fuel with
  | zero =>
    intro num i n j hj
    exact Except.noConfusion hj
  | succ fuel ih =>
    intro num i n j hj
    rw [parseDigitsLoop] at hj
    split at hj
    · split at hj
      · split at hj
        · exact Nat.le_of_succ_le (ih _ _ _ _ hj)
        · exact Nat.le_of_succ_le (ih _ _ _ _ hj)
      · cases hj
        exact Nat.le_refl _
    · exact Except.noConfusion hj

/-- The remainder loop of `Parser::parse_number`: after the integer digits,
a `.` re-enters `parse_digits` for the fractional digits and replaces the dot
multiplier with `EXP_MATRIX[1][digit count]`; an `e`/`E` finishes through
`parse_exponent`; any other byte finishes the literal; end of input is a
failure. -/
def parseNumberLoop (src : List Nat) : Nat → Nat → Bool → Int → Int → ℚ → Nat →
    PRes (JsonElement × Nat)
  | 0, _, _, _, _, _, _ => .error .outOfFuel
  | fuel + 1, mark, neg, before, afterDot, dotMultiplier, i =>
    if i < src.length then
      if byteAt src i = 46 then
        match parseDigits src (i + 1) with
        | .error e => .error e
        | .ok (ad, i₂) =>
          match expMatrix 1 (i₂ - (i + 1)) with
          | .error e => .error e
          | .ok dm => parseNumberLoop src fuel mark neg before ad dm i₂
      else if byteAt src i = 101 ∨ byteAt src i = 69 then
        match parseExponent src i with
        | .error e => .error e
        | .ok (exponent, i₂) =>
          let b' : Int := if neg then -before else before
          let a' : Int := if neg then -afterDot else afterDot
          .ok (JsonElement.from_number
            ⟨b', exponent * ((b' : ℚ) + (a' : ℚ) * dotMultiplier), .Float⟩
            ⟨src, mark, i₂⟩, i₂)
      else
        let b' : Int := if neg then -before else before
        let a' : Int := if neg then -afterDot else afterDot
        .ok (JsonElement.from_number
          ⟨b', (b' : ℚ) + (a' : ℚ) * dotMultiplier,
           if dotMultiplier ≠ 0 then .Float else .Integer⟩
          ⟨src, mark, i⟩, i)
    else
      .error (.jsonErr i)

/-- `Parser::parse_number`: optional leading `-`, the integer digits, then the
remainder loop. -/
def parseNumber (src : List Nat) (i : Nat) : PRes (JsonElement × Nat) :=
  if byteAt src i = 45 then
    match parseDigits src (i + 1) with
    | .error e => .error e
    | .ok (before, j) => parseNumberLoop src (src.length + 1) i true before 0 0 j
  else
    match parseDigits src i with
    | .error e => .error e
    | .ok (before, j) => parseNumberLoop src (src.length + 1) i false before 0 0 j

/-- The scan of `Parser::parse_string`: from past the opening quote, stop at
any `"` byte (there is no escape handling); the span excludes the quotes; end
of input is a failure. -/
def parseStringLoop (src : List Nat) : Nat → Nat → Nat → PRes (JsonElement × Nat)
  | 0, _, _ => .error .outOfFuel
  | fuel + 1, mark, i =>
    if i < src.length then
      if byteAt src i = 34 then
        .ok (JsonElement.from_string ⟨src, mark, i + 1 - 1⟩, i + 1)
      else
        parseStringLoop src fuel mark (i + 1)
    else
      .error (.jsonErr i)

/-- `Parser::parse_string`: advance past the opening quote, then scan. -/
def parseString (src : List Nat) (i : Nat) : PRes (JsonElement × Nat) :=
  parseStringLoop src (src.length + 1) (i + 1) (i + 1)

/-!
The container productions `Parser::parse_object` / `Parser::parse_array` are
mutually recursive; the embedding makes their loops structural in a shared
fuel parameter (one unit per loop iteration).  Nested container parses are
written as direct calls of the nested loop from past the opening bracket —
exactly the body of the corresponding wrapper (`parseObject` / `parseArray`)
defined right after the block.
-/

mutual

/-- The entry loop of `Parser::parse_object`.  With no pending key: spaces and
commas are skipped, `"` scans a key (the byte after the closing quote is then
skipped by the loop's increment), `}` finishes the object, anything else
fails.  With a pending key: spaces and colons are skipped, a value-starting
byte parses the entry's value and inserts it, anything else fails. -/
def parseObjectLoop (src : List Nat) (fuel : Nat) (mark : Nat)
    (object : List (List Nat × JsonElement)) (key : Option (List Nat)) (i : Nat) :
    PRes (JsonElement × Nat) :=
  match fuel with
  | 0 => .error .outOfFuel
  | fuel + 1 =>
    if i < src.length then
      match key with
      | none =>
        if byteAt src i = 32 ∨ byteAt src i = 44 then
          parseObjectLoop src fuel mark object none (i + 1)
        else if byteAt src i = 34 then
          match parseString src i with
          | .error e => .error e
          | .ok (el, j) => parseObjectLoop src fuel mark object (some el.slice.str) (j + 1)
        else if byteAt src i = 125 then
          .ok (JsonElement.from_object object ⟨src, mark, i + 1⟩, i + 1)
        else
          .error (.jsonErr i)
      | some k =>
        if byteAt src i = 32 ∨ byteAt src i = 58 then
          parseObjectLoop src fuel mark object (some k) (i + 1)
        else if byteAt src i = 110 then
          match parseNull src i with
          | .error e => .error e
          | .ok (el, j) => parseObjectLoop src fuel mark (mapInsert object k el) none j
        else if byteAt src i = 116 then
          match parseTrue src i with
          | .error e => .error e
          | .ok (el, j) => parseObjectLoop src fuel mark (mapInsert object k el) none j
        else if byteAt src i = 102 then
          match parseFalse src i with
          | .error e => .error e
          | .ok (el, j) => parseObjectLoop src fuel mark (mapInsert object k el) none j
        else if byteAt src i = 45 ∨ (48 ≤ byteAt src i ∧ byteAt src i ≤ 57) then
          match parseNumber src i with
          | .error e => .error e
          | .ok (el, j) => parseObjectLoop src fuel mark (mapInsert object k el) none j
        else if byteAt src i = 34 then
          match parseString src i with
          | .error e => .error e
          | .ok (el, j) => parseObjectLoop src fuel mark (mapInsert object k el) none j
        else if byteAt src i = 123 then
          match parseObjectLoop src fuel i [] none (i + 1) with
          | .error e => .error e
          | .ok (el, j) => parseObjectLoop src fuel mark (mapInsert object k el) none j
        else if byteAt src i = 91 then
          match parseArrayLoop src fuel i [] (i + 1) with
          | .error e => .error e
          | .ok (el, j) => parseObjectLoop src fuel mark (mapInsert object k el) none j
        else
          .error (.jsonErr i)
    else
      .error (.jsonErr i)

/-- The entry loop of `Parser::parse_array`: spaces and commas are skipped, a
value-starting byte parses an element and appends it, `]` finishes the array,
anything else fails. -/
def parseArrayLoop (src : List Nat) (fuel : Nat) (mark : Nat)
    (array : List JsonElement) (i : Nat) : PRes (JsonElement × Nat) :=
  match fuel with
  | 0 => .error .outOfFuel
  | fuel + 1 =>
    if i < src.length then
      if byteAt src i = 32 ∨ byteAt src i = 44 then
        parseArrayLoop src fuel mark array (i + 1)
      else if byteAt src i = 110 then
        match parseNull src i with
        | .error e => .error e
        | .ok (el, j) => parseArrayLoop src fuel mark (array ++ [el]) j
      else if byteAt src i = 116 then
        match parseTrue src i with
        | .error e => .error e
        | .ok (el, j) => parseArrayLoop src fuel mark (array ++ [el]) j
      else if byteAt src i = 102 then
        match parseFalse src i with
        | .error e => .error e
        | .ok (el, j) => parseArrayLoop src fuel mark (array ++ [el]) j
      else if byteAt src i = 45 ∨ (48 ≤ byteAt src i ∧ byteAt src i ≤ 57) then
        match parseNumber src i with
        | .error e => .error e
        | .ok (el, j) => parseArrayLoop src fuel mark (array ++ [el]) j
      else if byteAt src i = 34 then
        match parseString src i with
        | .error e => .error e
        | .ok (el, j) => parseArrayLoop src fuel mark (array ++ [el]) j
      else if byteAt src i = 123 then
        match parseObjectLoop src fuel i [] none (i + 1) with
        | .error e => .error e
        | .ok (el, j) => parseArrayLoop src fuel mark (array ++ [el]) j
      else if byteAt src i = 91 then
        match parseArrayLoop src fuel i [] (i + 1) with
        | .error e => .error e
        | .ok (el, j) => parseArrayLoop src fuel mark (array ++ [el]) j
      else if byteAt src i = 93 then
        .ok (JsonElement.from_array array ⟨src, mark, i + 1⟩, i + 1)
      else
        .error (.jsonErr i)
    else
      .error (.jsonErr i)

end

/-- `Parser::parse_object`: record the `{` position, loop from past it. -/
def parseObject (src : List Nat) (fuel i : Nat) : PRes (JsonElement × Nat) :=
  parseObjectLoop src fuel i [] none (i + 1)

/-- `Parser::parse_array`: record the `[` position, loop from past it. -/
def parseArray (src : List Nat) (fuel i : Nat) : PRes (JsonElement × Nat) :=
  parseArrayLoop src fuel i [] (i + 1)

/-- The loop of `Parser::parse`: skip space bytes (and only space bytes),
dispatch `{` to the object production and `[` to the array production, fail on
any other byte; end of input is a failure at the final cursor.  `fuel` is the
container productions' shared fuel; the skip loop itself runs on `skipFuel`. -/
def parseTopLoop (src : List Nat) (fuel : Nat) : Nat → Nat → PRes (JsonElement × Nat)
  | 0, _ => .error .outOfFuel
  | skipFuel + 1, i =>
    if i < src.length then
      if byteAt src i = 32 then
        parseTopLoop src fuel skipFuel (i + 1)
      else if byteAt src i = 123 then
        parseObject src fuel i
      else if byteAt src i = 91 then
        parseArray src fuel i
      else
        .error (.jsonErr i)
    else
      .error (.jsonErr i)

/-- `Parser::parse` on a whole source: run the top-level loop from index 0.
The fuel `2 * src.length + 2` dominates the total number of container-loop
iterations on any input, so `PErr.outOfFuel` is never actually produced. -/
def parse (src : List Nat) : Except PErr JsonElement :=
  (parseTopLoop src (2 * src.length + 2) (src.length + 1) 0).map (fun p => p.1)

/-! ## Specification-side functions

The following definitions are not translations of program code; they express,
independently of the parser's cursor loops, quantities the claims talk about:
digit runs, digit-string values, the exponent scan value, and the position of
the next quote byte. -/

/-- Is the byte an ASCII digit? -/
def isDigit (b : Nat) : Bool :=
  decide (48 ≤ b ∧ b ≤ 57)

/-- The maximal run of ASCII digit bytes starting at position `i`. -/
def digitsAt (src : List Nat) (i : Nat) : List Nat :=
  (src.drop i).takeWhile isDigit

/-- Decimal value of a digit string, most significant digit first, starting
from an accumulator. -/
def digitsFold (a : Int) (l : List Nat) : Int :=
  l.foldl (fun a b => a * 10 + ((b : Int) - 48)) a

/-- Decimal value of a digit string. -/
def digitsVal (l : List Nat) : Int :=
  digitsFold 0 l

/-- One step of the exponent scan: digits accumulate (wrapping as `usize`),
a `-` leaves the accumulator unchanged. -/
def expAcc (a b : Nat) : Nat :=
  if 48 ≤ b ∧ b ≤ 57 then (a * 10 + (b - 48)) % 2 ^ 64 else a

/-- Is the byte part of an exponent scan (`-` or a digit)? -/
def isExpByte (b : Nat) : Bool :=
  decide (b = 45 ∨ (48 ≤ b ∧ b ≤ 57))

/-- The run of bytes the exponent scan consumes from position `i`. -/
def expRun (src : List Nat) (i : Nat) : List Nat :=
  (src.drop i).takeWhile isExpByte

/-- The accumulator value the exponent scan reaches when it stops, starting
the scan at position `i` with accumulator 0. -/
def expScanVal (src : List Nat) (i : Nat) : Nat :=
  (expRun src i).foldl expAcc 0

/-- Index of the first `"` byte at position ≥ `i`, if any. -/
def quoteIdx : List Nat → Option Nat
  | [] => none
  | b :: rest => if b = 34 then some 0 else (quoteIdx rest).map (fun k => k + 1)

def findQuote (src : List Nat) (i : Nat) : Option Nat :=
  (quoteIdx (src.drop i)).map (fun k => i + k)

/-- Every `.` in the input is followed by at most 64 digits (so the
fractional-digit table lookup is in range). -/
def fracOKb (src : List Nat) : Bool :=
  (List.range src.length).all (fun i =>
    if byteAt src i = 46 then (digitsAt src (i + 1)).length ≤ 64 else true)

/-- Every `e`/`E` in the input starts an exponent whose scanned value is at
most 64 (so the exponent table lookup is in range). -/
def expOKb (src : List Nat) : Bool :=
  (List.range src.length).all (fun i =>
    if byteAt src i = 101 ∨ byteAt src i = 69 then expScanVal src (i + 1) ≤ 64 else true)

/-- The element of a successful production result (sentinel on failure);
used to name parse results in closed statements. -/
def okPair : PRes (JsonElement × Nat) → JsonElement
  | .ok (e, _) => e
  | .error _ => .empty

/-- The element of a successful `parse` (sentinel on failure). -/
def okElem : Except PErr JsonElement → JsonElement
  | .ok e => e
  | .error _ => .empty

mutual

/-- Does every node of the tree (the node itself, all object entries, all
array elements, recursively) carry a tag other than `JsonEmpty`? -/
def allPresent : JsonElement → Bool
  | .mk t _ _ _ o a =>
    (t != .JsonEmpty) && allPresentObj o && allPresentArr a

/-- `allPresent` over an optional object payload. -/
def allPresentObj : Option (List (List Nat × JsonElement)) → Bool
  | none => true
  | some m => allPresentEntries m

/-- `allPresent` over the entries of an object payload. -/
def allPresentEntries : List (List Nat × JsonElement) → Bool
  | [] => true
  | (_, v) :: rest => allPresent v && allPresentEntries rest

/-- `allPresent` over an optional array payload. -/
def allPresentArr : Option (List JsonElement) → Bool
  | none => true
  | some l => allPresentElems l

/-- `allPresent` over the elements of an array payload. -/
def allPresentElems : List JsonElement → Bool
  | [] => true
  | e :: rest => allPresent e && allPresentElems rest

end

/-! ## Basic facts about the specification-side functions -/

theorem byteAt_eq_getElem (src : List Nat) (i : Nat) (h : i < src.length) :
    byteAt src i = src[i] :=
  List.getD_eq_getElem src 0 h

theorem drop_cons_byteAt (src : List Nat) (i : Nat) (h : i < src.length) :
    src.drop i = byteAt src i :: src.drop (i + 1) := by
  rw [byteAt_eq_getElem src i h]
  exact List.drop_eq_getElem_cons h

theorem digitsAt_eof (src : List Nat) (i : Nat) (h : ¬ i < src.length) :
    digitsAt src i = [] := by
  unfold digitsAt
  rw [List.drop_eq_nil_of_le (by omega)]
  rfl

theorem digitsAt_cons (src : List Nat) (i : Nat) (h : i < src.length)
    (hd : isDigit (byteAt src i) = true) :
    digitsAt src i = byteAt src i :: digitsAt src (i + 1) := by
  unfold digitsAt
  rw [drop_cons_byteAt src i h, List.takeWhile_cons, if_pos hd]

theorem digitsAt_nil (src : List Nat) (i : Nat) (h : i < src.length)
    (hd : isDigit (byteAt src i) = false) :
    digitsAt src i = [] := by
  unfold digitsAt
  rw [drop_cons_byteAt src i h, List.takeWhile_cons, if_neg (by simp [hd])]

theorem expRun_eof (src : List Nat) (i : Nat) (h : ¬ i < src.length) :
    expRun src i = [] := by
  unfold expRun
  rw [List.drop_eq_nil_of_le (by omega)]
  rfl

theorem expRun_cons (src : List Nat) (i : Nat) (h : i < src.length)
    (hd : isExpByte (byteAt src i) = true) :
    expRun src i = byteAt src i :: expRun src (i + 1) := by
  unfold expRun
  rw [drop_cons_byteAt src i h, List.takeWhile_cons, if_pos hd]

theorem expRun_nil (src : List Nat) (i : Nat) (h : i < src.length)
    (hd : isExpByte (byteAt src i) = false) :
    expRun src i = [] := by
  unfold expRun
  rw [drop_cons_byteAt src i h, List.takeWhile_cons, if_neg (by simp [hd])]

theorem digitsFold_cons (a : Int) (b : Nat) (l : List Nat) :
    digitsFold a (b :: l) = digitsFold (a * 10 + ((b : Int) - 48)) l :=
  rfl

/-- Digit folding from a nonnegative accumulator over digit bytes never
decreases the accumulator. -/
theorem digitsFold_ge (l : List Nat) :
    ∀ a : Int, (∀ b ∈ l, 48 ≤ b) → 0 ≤ a → a ≤ digitsFold a l := by
  induction l with
  | nil =>
    intro a _ _
    exact Int.le_refl a
  | cons b rest ih =>
    intro a hb ha
    have hb48 : (48 : Int) ≤ (b : Int) := by
      exact_mod_cast hb b (List.mem_cons_self b rest)
    have hstep : a ≤ a * 10 + ((b : Int) - 48) := by nlinarith
    calc a ≤ a * 10 + ((b : Int) - 48) := hstep
      _ ≤ digitsFold (a * 10 + ((b : Int) - 48)) rest := by
          refine ih _ (fun c hc => hb c (List.mem_cons_of_mem b hc)) (by omega)
      _ = digitsFold a (b :: rest) := (digitsFold_cons a b rest).symm

theorem digitsAt_mem_ge (src : List Nat) (i : Nat) :
    ∀ b ∈ digitsAt src i, 48 ≤ b := by
  intro b hb
  have := List.mem_takeWhile_imp hb
  simp only [isDigit, decide_eq_true_eq] at this
  omega

/-! ## `parse_digits`: cursor movement, value, absence of panic -/

/-- A successful digit scan stops exactly past the maximal digit run. -/
theorem parseDigitsLoop_stop (src : List Nat) :
    ∀ fuel (num : Int) (i : Nat) n j,
      parseDigitsLoop src fuel num i = .ok (n, j) →
      j = i + (digitsAt src i).length := by
  intro fuel
  induction fuel with
  | zero =>
    intro num i n j hj
    exact Except.noConfusion hj
  | succ fuel ih =>
    intro num i n j hj
    rw [parseDigitsLoop] at hj
    by_cases h : i < src.length
    · rw [if_pos h] at hj
      by_cases hd : 48 ≤ byteAt src i ∧ byteAt src i ≤ 57
      · rw [if_pos hd] at hj
        have hrun : digitsAt src i = byteAt src i :: digitsAt src (i + 1) :=
          digitsAt_cons src i h (by simp [isDigit, hd.1, hd.2])
        split at hj
        · have := ih _ _ _ _ hj
          rw [hrun]
          simp only [List.length_cons]
          omega
        · have := ih _ _ _ _ hj
          rw [hrun]
          simp only [List.length_cons]
          omega
      · rw [if_neg hd] at hj
        cases hj
        have hrun : digitsAt src i = [] :=
          digitsAt_nil src i h (by simp [isDigit]; omega)
        rw [hrun]
        simp
    · rw [if_neg h] at hj
      exact Except.noConfusion hj

/-- A digit scan fails exactly when the digit run reaches the end of the
input; the failure offset is the input length. -/
theorem parseDigitsLoop_ok (src : List Nat) :
    ∀ fuel (num : Int) (i : Nat),
      src.length - i < fuel →
      i + (digitsAt src i).length < src.length →
      ∃ n j, parseDigitsLoop src fuel num i = .ok (n, j) := by
  intro fuel
  induction fuel with
  | zero =>
    intro num i hf _
    omega
  | succ fuel ih =>
    intro num i hf hrun
    rw [parseDigitsLoop]
    by_cases h : i < src.length
    · rw [if_pos h]
      by_cases hd : 48 ≤ byteAt src i ∧ byteAt src i ≤ 57
      · rw [if_pos hd]
        have hcons : digitsAt src i = byteAt src i :: digitsAt src (i + 1) :=
          digitsAt_cons src i h (by simp [isDigit, hd.1, hd.2])
        rw [hcons] at hrun
        simp only [List.length_cons] at hrun
        split
        · exact ih num (i + 1) (by omega) (by omega)
        · exact ih _ (i + 1) (by omega) (by omega)
      · rw [if_neg hd]
        exact ⟨num, i, rfl⟩
    · exfalso
      have : digitsAt src i = [] := digitsAt_eof src i h
      rw [this] at hrun
      simp at hrun
      omega

/-- The value computed by a successful digit scan is the decimal fold of the
digit run, provided no intermediate multiply overflows `i128` — guaranteed
when ten times the final fold value stays below `2^127`. -/
theorem parseDigitsLoop_val (src : List Nat) :
    ∀ fuel (num : Int) (i : Nat) n j,
      0 ≤ num →
      10 * digitsFold num (digitsAt src i) < 2 ^ 127 →
      parseDigitsLoop src fuel num i = .ok (n, j) →
      n = digitsFold num (digitsAt src i) := by
  intro fuel
  induction fuel with
  | zero =>
    intro num i n j _ _ hj
    exact Except.noConfusion hj
  | succ fuel ih =>
    intro num i n j hnum hov hj
    rw [parseDigitsLoop] at hj
    by_cases h : i < src.length
    · rw [if_pos h] at hj
      by_cases hd : 48 ≤ byteAt src i ∧ byteAt src i ≤ 57
      · rw [if_pos hd] at hj
        have hcons : digitsAt src i = byteAt src i :: digitsAt src (i + 1) :=
          digitsAt_cons src i h (by simp [isDigit, hd.1, hd.2])
        rw [hcons] at hov ⊢
        rw [digitsFold_cons] at hov ⊢
        have hb48 : (48 : Int) ≤ (byteAt src i : Int) := by exact_mod_cast hd.1
        have hnum' : 0 ≤ num * 10 + ((byteAt src i : Int) - 48) := by nlinarith
        have hge : num * 10 + ((byteAt src i : Int) - 48)
            ≤ digitsFold (num * 10 + ((byteAt src i : Int) - 48)) (digitsAt src (i + 1)) :=
          digitsFold_ge _ _ (digitsAt_mem_ge src (i + 1)) hnum'
        split at hj
        · exfalso
          rename_i hcase
          rcases hcase with hlo | hhi
          · nlinarith
          · nlinarith
        · exact ih _ _ _ _ hnum' hov hj
      · rw [if_neg hd] at hj
        cases hj
        have : digitsAt src i = [] := digitsAt_nil src i h (by simp [isDigit]; omega)
        rw [this]
        rfl
    · rw [if_neg h] at hj
      exact Except.noConfusion hj

/-- The digit scan never reaches the table-lookup panic. -/
theorem parseDigitsLoop_no_panic (src : List Nat) :
    ∀ fuel (num : Int) (i : Nat),
      parseDigitsLoop src fuel num i ≠ .error .panicOOB := by
  intro fuel
  induction fuel with
  | zero =>
    intro num i h
    exact PErr.noConfusion (Except.error.inj h)
  | succ fuel ih =>
    intro num i h
    rw [parseDigitsLoop] at h
    split at h
    · split at h
      · split at h
        · exact ih _ _ h
        · exact ih _ _ h
      · exact Except.noConfusion h
    · exact PErr.noConfusion (Except.error.inj h)

/-! ## `parse_exponent` and the table lookups -/

/-- The table-lookup precondition, as parse-time propositions: every `.` is
followed by at most 64 digits. -/
def FracOK (src : List Nat) : Prop :=
  ∀ i, i < src.length → byteAt src i = 46 → (digitsAt src (i + 1)).length ≤ 64

/-- Every `e`/`E` starts an exponent scan whose final value is at most 64. -/
def ExpOK (src : List Nat) : Prop :=
  ∀ i, i < src.length → (byteAt src i = 101 ∨ byteAt src i = 69) →
    expScanVal src (i + 1) ≤ 64

theorem fracOKb_spec (src : List Nat) (h : fracOKb src = true) : FracOK src := by
  intro i hi hb
  have := (List.all_eq_true.mp h) i (List.mem_range.mpr hi)
  rw [if_pos hb] at this
  exact of_decide_eq_true this

theorem expOKb_spec (src : List Nat) (h : expOKb src = true) : ExpOK src := by
  intro i hi hb
  have := (List.all_eq_true.mp h) i (List.mem_range.mpr hi)
  rw [if_pos hb] at this
  exact of_decide_eq_true this

/-- If the exponent scan's final accumulator value is in table range, the
exponent loop never reaches the panic branch of the lookup. -/
theorem parseExponentLoop_no_panic (src : List Nat) :
    ∀ fuel (number shift i : Nat),
      shift < 2 →
      (expRun src i).foldl expAcc number ≤ 64 →
      parseExponentLoop src fuel number shift i ≠ .error .panicOOB := by
  intro fuel
  induction fuel with
  | zero =>
    intro number shift i _ _ h
    exact PErr.noConfusion (Except.error.inj h)
  | succ fuel ih =>
    intro number shift i hshift hval h
    rw [parseExponentLoop] at h
    by_cases hlen : i < src.length
    · rw [if_pos hlen] at h
      by_cases hminus : byteAt src i = 45
      · rw [if_pos hminus] at h
        have hcons : expRun src i = byteAt src i :: expRun src (i + 1) :=
          expRun_cons src i hlen (by simp [isExpByte, hminus])
        rw [hcons, List.foldl_cons] at hval
        have hacc : expAcc number (byteAt src i) = number := by
          rw [hminus]
          simp [expAcc]
        rw [hacc] at hval
        exact ih number 1 (i + 1) (by omega) hval h
      · rw [if_neg hminus] at h
        by_cases hdig : 48 ≤ byteAt src i ∧ byteAt src i ≤ 57
        · rw [if_pos hdig] at h
          have hcons : expRun src i = byteAt src i :: expRun src (i + 1) :=
            expRun_cons src i hlen (by simp [isExpByte]; omega)
          rw [hcons, List.foldl_cons] at hval
          have hacc : expAcc number (byteAt src i)
              = (number * 10 + (byteAt src i - 48)) % 2 ^ 64 := by
            simp [expAcc, hdig]
          rw [hacc] at hval
          exact ih _ shift (i + 1) hshift hval h
        · rw [if_neg hdig] at h
          have hnil : expRun src i = [] := by
            refine expRun_nil src i hlen ?_
            simp [isExpByte]
            omega
          rw [hnil] at hval
          simp only [List.foldl_nil] at hval
          rw [expMatrix, if_pos ⟨hshift, by omega⟩] at h
          exact Except.noConfusion h
    · rw [if_neg hlen] at h
      exact PErr.noConfusion (Except.error.inj h)

/-- `parse_exponent` under the table precondition never panics. -/
theorem parseExponent_no_panic (src : List Nat) (i : Nat)
    (hval : expScanVal src (i + 1) ≤ 64) :
    parseExponent src i ≠ .error .panicOOB :=
  parseExponentLoop_no_panic src (src.length + 1) 0 0 (i + 1) (by omega) hval

/-! ## `parse_number`: mantissa and absence of panic -/

/-- The number-remainder loop leaves the integer mantissa untouched: a
successful parse stores the sign-applied `before` accumulator. -/
theorem parseNumberLoop_mantissa (src : List Nat) :
    ∀ fuel (mark : Nat) (neg : Bool) (before afterDot : Int) (dotMultiplier : ℚ)
      (i : Nat) e j,
      parseNumberLoop src fuel mark neg before afterDot dotMultiplier i = .ok (e, j) →
      e.number.map Number.num_i128 = some (if neg then -before else before) := by
  intro fuel
  induction fuel with
  | zero =>
    intro mark neg before afterDot dotMultiplier i e j hj
    exact Except.noConfusion hj
  | succ fuel ih =>
    intro mark neg before afterDot dotMultiplier i e j hj
    rw [parseNumberLoop] at hj
    split at hj
    · split at hj
      · split at hj
        · exact Except.noConfusion hj
        · split at hj
          · exact Except.noConfusion hj
          · exact ih _ _ _ _ _ _ _ _ hj
      · split at hj
        · split at hj
          · exact Except.noConfusion hj
          · cases hj
            simp [JsonElement.from_number, JsonElement.number]
        · cases hj
          simp [JsonElement.from_number, JsonElement.number]
    · exact Except.noConfusion hj

/-- A successful `parse_number` stores as mantissa the sign-applied value of
the integer-part digit run (and only of those digits), provided the digit
accumulation does not overflow `i128`. -/
theorem parseNumber_mantissa (src : List Nat) (i : Nat) (e : JsonElement) (j : Nat)
    (hj : parseNumber src i = .ok (e, j)) :
    (byteAt src i = 45 →
      10 * digitsVal (digitsAt src (i + 1)) < 2 ^ 127 →
      e.number.map Number.num_i128 = some (-(digitsVal (digitsAt src (i + 1))))) ∧
    (byteAt src i ≠ 45 →
      10 * digitsVal (digitsAt src i) < 2 ^ 127 →
      e.number.map Number.num_i128 = some (digitsVal (digitsAt src i))) := by
  constructor
  · intro hminus hov
    rw [parseNumber, if_pos hminus] at hj
    cases hpd : parseDigits src (i + 1) with
    | error e' =>
      rw [hpd] at hj
      exact Except.noConfusion hj
    | ok p =>
      obtain ⟨before, j'⟩ := p
      rw [hpd] at hj
      have hval := parseDigitsLoop_val src (src.length + 1) 0 (i + 1) before j'
        (Int.le_refl 0) hov hpd
      have := parseNumberLoop_mantissa src (src.length + 1) i true before 0 0 j' e j hj
      rw [this, hval]
      simp [digitsVal]
  · intro hminus hov
    rw [parseNumber, if_neg hminus] at hj
    cases hpd : parseDigits src i with
    | error e' =>
      rw [hpd] at hj
      exact Except.noConfusion hj
    | ok p =>
      obtain ⟨before, j'⟩ := p
      rw [hpd] at hj
      have hval := parseDigitsLoop_val src (src.length + 1) 0 i before j'
        (Int.le_refl 0) hov hpd
      have := parseNumberLoop_mantissa src (src.length + 1) i false before 0 0 j' e j hj
      rw [this, hval]
      simp [digitsVal]

/-- Under the table preconditions the number-remainder loop never panics. -/
theorem parseNumberLoop_no_panic (src : List Nat) (hf : FracOK src) (he : ExpOK src) :
    ∀ fuel (mark : Nat) (neg : Bool) (before afterDot : Int) (dotMultiplier : ℚ)
      (i : Nat),
      parseNumberLoop src fuel mark neg before afterDot dotMultiplier i
        ≠ .error .panicOOB := by
  intro fuel
  induction fuel with
  | zero =>
    intro mark neg before afterDot dotMultiplier i h
    exact PErr.noConfusion (Except.error.inj h)
  | succ fuel ih =>
    intro mark neg before afterDot dotMultiplier i h
    rw [parseNumberLoop] at h
    by_cases hlen : i < src.length
    · rw [if_pos hlen] at h
      by_cases hdot : byteAt src i = 46
      · rw [if_pos hdot] at h
        cases hpd : parseDigits src (i + 1) with
        | error e' =>
          rw [hpd] at h
          cases h
          exact parseDigitsLoop_no_panic src _ 0 (i + 1) hpd
        | ok p =>
          obtain ⟨ad, i₂⟩ := p
          rw [hpd] at h
          have hstop := parseDigitsLoop_stop src (src.length + 1) 0 (i + 1) ad i₂ hpd
          have hlen64 : i₂ - (i + 1) ≤ 64 := by
            have := hf i hlen hdot
            omega
          have hmat : expMatrix 1 (i₂ - (i + 1))
              = .ok (((1 : ℚ) / 10) ^ (i₂ - (i + 1))) := by
            rw [expMatrix, if_pos ⟨by omega, by omega⟩]
            simp
          simp only [hmat] at h
          exact ih _ _ _ _ _ _ h
      · rw [if_neg hdot] at h
        by_cases hexp : byteAt src i = 101 ∨ byteAt src i = 69
        · rw [if_pos hexp] at h
          split at h
          · rename_i e' heq
            cases h
            exact parseExponent_no_panic src i (he i hlen hexp) heq
          · exact Except.noConfusion h
        · rw [if_neg hexp] at h
          exact Except.noConfusion h
    · rw [if_neg hlen] at h
      exact PErr.noConfusion (Except.error.inj h)

/-- Under the table preconditions `parse_number` never panics. -/
theorem parseNumber_no_panic (src : List Nat) (hf : FracOK src) (he : ExpOK src)
    (i : Nat) : parseNumber src i ≠ .error .panicOOB := by
  intro h
  rw [parseNumber] at h
  split at h
  · split at h
    · rename_i e' heq
      cases h
      exact parseDigitsLoop_no_panic src _ 0 (i + 1) heq
    · exact parseNumberLoop_no_panic src hf he _ _ _ _ _ _ _ h
  · split at h
    · rename_i e' heq
      cases h
      exact parseDigitsLoop_no_panic src _ 0 i heq
    · exact parseNumberLoop_no_panic src hf he _ _ _ _ _ _ _ h

/-! ## `parse_string`: characterization and absence of panic -/

theorem findQuote_eof (src : List Nat) (i : Nat) (h : ¬ i < src.length) :
    findQuote src i = none := by
  unfold findQuote
  rw [List.drop_eq_nil_of_le (by omega)]
  rfl

theorem findQuote_quote (src : List Nat) (i : Nat) (h : i < src.length)
    (hq : byteAt src i = 34) : findQuote src i = some i := by
  unfold findQuote
  rw [drop_cons_byteAt src i h]
  simp [quoteIdx, hq]

theorem findQuote_step (src : List Nat) (i : Nat) (h : i < src.length)
    (hq : byteAt src i ≠ 34) : findQuote src i = findQuote src (i + 1) := by
  unfold findQuote
  rw [drop_cons_byteAt src i h]
  cases hqi : quoteIdx (src.drop (i + 1)) with
  | none => simp [quoteIdx, hq, hqi]
  | some k =>
    simp [quoteIdx, hq, hqi]
    omega

/-- The string scan stops at the first `"` at or after its start position —
regardless of what precedes that quote — and fails at the input's end when
there is none. -/
theorem parseStringLoop_spec (src : List Nat) :
    ∀ fuel (mark i : Nat),
      i ≤ src.length →
      src.length - i < fuel →
      parseStringLoop src fuel mark i =
        match findQuote src i with
        | some j => .ok (JsonElement.from_string ⟨src, mark, j + 1 - 1⟩, j + 1)
        | none => .error (.jsonErr src.length) := by
  intro fuel
  induction fuel with
  | zero =>
    intro mark i _ hf
    omega
  | succ fuel ih =>
    intro mark i hle hf
    rw [parseStringLoop]
    by_cases hlen : i < src.length
    · rw [if_pos hlen]
      by_cases hq : byteAt src i = 34
      · rw [if_pos hq, findQuote_quote src i hlen hq]
      · rw [if_neg hq, findQuote_step src i hlen hq]
        exact ih mark (i + 1) (by omega) (by omega)
    · rw [if_neg hlen, findQuote_eof src i hlen]
      have : i = src.length := by omega
      rw [this]

/-- `parse_string` characterized: the span runs from past the opening quote to
the first quote byte after it (escaped or not), and the cursor ends just past
that terminator; with no quote left, failure at end of input. -/
theorem parseString_spec (src : List Nat) (i : Nat) (h : i < src.length) :
    parseString src i =
      match findQuote src (i + 1) with
      | some j => .ok (JsonElement.from_string ⟨src, i + 1, j + 1 - 1⟩, j + 1)
      | none => .error (.jsonErr src.length) := by
  rw [parseString]
  exact parseStringLoop_spec src (src.length + 1) (i + 1) (i + 1) (by omega) (by omega)

/-- The string scan never panics. -/
theorem parseStringLoop_no_panic (src : List Nat) :
    ∀ fuel (mark i : Nat), parseStringLoop src fuel mark i ≠ .error .panicOOB := by
  intro fuel
  induction fuel with
  | zero =>
    intro mark i h
    exact PErr.noConfusion (Except.error.inj h)
  | succ fuel ih =>
    intro mark i h
    rw [parseStringLoop] at h
    split at h
    · split at h
      · exact Except.noConfusion h
      · exact ih _ _ h
    · exact PErr.noConfusion (Except.error.inj h)

theorem parseString_no_panic (src : List Nat) (i : Nat) :
    parseString src i ≠ .error .panicOOB :=
  parseStringLoop_no_panic src _ _ _

theorem parseNull_no_panic (src : List Nat) (i : Nat) :
    parseNull src i ≠ .error .panicOOB := by
  intro h
  rw [parseNull] at h
  split at h
  · split at h
    · exact Except.noConfusion h
    · exact PErr.noConfusion (Except.error.inj h)
  · exact PErr.noConfusion (Except.error.inj h)

theorem parseTrue_no_panic (src : List Nat) (i : Nat) :
    parseTrue src i ≠ .error .panicOOB := by
  intro h
  rw [parseTrue] at h
  split at h
  · split at h
    · exact Except.noConfusion h
    · exact PErr.noConfusion (Except.error.inj h)
  · exact PErr.noConfusion (Except.error.inj h)

theorem parseFalse_no_panic (src : List Nat) (i : Nat) :
    parseFalse src i ≠ .error .panicOOB := by
  intro h
  rw [parseFalse] at h
  split at h
  · split at h
    · exact Except.noConfusion h
    · exact PErr.noConfusion (Except.error.inj h)
  · exact PErr.noConfusion (Except.error.inj h)

/-! ## Every parsed node is present (carries a non-empty tag) -/

theorem allPresentElems_push (l : List JsonElement) (e : JsonElement)
    (hl : allPresentElems l = true) (he : allPresent e = true) :
    allPresentElems (l ++ [e]) = true := by
  induction l with
  | nil => simp [allPresentElems, he]
  | cons x rest ih =>
    rw [allPresentElems] at hl
    rw [List.cons_append, allPresentElems]
    simp only [Bool.and_eq_true] at hl ⊢
    exact ⟨hl.1, ih hl.2⟩

theorem allPresentEntries_filter (m : List (List Nat × JsonElement))
    (p : List Nat × JsonElement → Bool)
    (hm : allPresentEntries m = true) :
    allPresentEntries (m.filter p) = true := by
  induction m with
  | nil => exact hm
  | cons x rest ih =>
    obtain ⟨xk, xv⟩ := x
    rw [allPresentEntries] at hm
    simp only [Bool.and_eq_true] at hm
    rw [List.filter_cons]
    by_cases hp : p (xk, xv)
    · rw [if_pos hp, allPresentEntries]
      simp only [Bool.and_eq_true]
      exact ⟨hm.1, ih hm.2⟩
    · rw [if_neg hp]
      exact ih hm.2

theorem allPresentEntries_append (m₁ m₂ : List (List Nat × JsonElement))
    (h₁ : allPresentEntries m₁ = true) (h₂ : allPresentEntries m₂ = true) :
    allPresentEntries (m₁ ++ m₂) = true := by
  induction m₁ with
  | nil => exact h₂
  | cons x rest ih =>
    obtain ⟨xk, xv⟩ := x
    rw [allPresentEntries] at h₁
    simp only [Bool.and_eq_true] at h₁
    rw [List.cons_append, allPresentEntries]
    simp only [Bool.and_eq_true]
    exact ⟨h₁.1, ih h₁.2⟩

theorem allPresent_mapInsert (m : List (List Nat × JsonElement)) (k : List Nat)
    (v : JsonElement) (hm : allPresentEntries m = true) (hv : allPresent v = true) :
    allPresentEntries (mapInsert m k v) = true := by
  rw [mapInsert]
  refine allPresentEntries_append _ _ (allPresentEntries_filter m _ hm) ?_
  rw [allPresentEntries, allPresentEntries]
  simp [hv]

theorem parseNull_present (src : List Nat) (i : Nat) (e : JsonElement) (j : Nat)
    (hj : parseNull src i = .ok (e, j)) : allPresent e = true := by
  rw [parseNull] at hj
  split at hj
  · split at hj
    · cases hj
      rfl
    · exact Except.noConfusion hj
  · exact Except.noConfusion hj

theorem parseTrue_present (src : List Nat) (i : Nat) (e : JsonElement) (j : Nat)
    (hj : parseTrue src i = .ok (e, j)) : allPresent e = true := by
  rw [parseTrue] at hj
  split at hj
  · split at hj
    · cases hj
      rfl
    · exact Except.noConfusion hj
  · exact Except.noConfusion hj

theorem parseFalse_present (src : List Nat) (i : Nat) (e : JsonElement) (j : Nat)
    (hj : parseFalse src i = .ok (e, j)) : allPresent e = true := by
  rw [parseFalse] at hj
  split at hj
  · split at hj
    · cases hj
      rfl
    · exact Except.noConfusion hj
  · exact Except.noConfusion hj

theorem parseStringLoop_present (src : List Nat) :
    ∀ fuel (mark i : Nat) e j,
      parseStringLoop src fuel mark i = .ok (e, j) → allPresent e = true := by
  intro fuel
  induction fuel with
  | zero =>
    intro mark i e j hj
    exact Except.noConfusion hj
  | succ fuel ih =>
    intro mark i e j hj
    rw [parseStringLoop] at hj
    split at hj
    · split at hj
      · cases hj
        rfl
      · exact ih _ _ _ _ hj
    · exact Except.noConfusion hj

theorem parseString_present (src : List Nat) (i : Nat) (e : JsonElement) (j : Nat)
    (hj : parseString src i = .ok (e, j)) : allPresent e = true :=
  parseStringLoop_present src _ _ _ _ _ hj

theorem parseNumberLoop_present (src : List Nat) :
    ∀ fuel (mark : Nat) (neg : Bool) (before afterDot : Int) (dotMultiplier : ℚ)
      (i : Nat) e j,
      parseNumberLoop src fuel mark neg before afterDot dotMultiplier i = .ok (e, j) →
      allPresent e = true := by
  intro fuel
  induction fuel with
  | zero =>
    intro mark neg before afterDot dotMultiplier i e j hj
    exact Except.noConfusion hj
  | succ fuel ih =>
    intro mark neg before afterDot dotMultiplier i e j hj
    rw [parseNumberLoop] at hj
    split at hj
    · split at hj
      · split at hj
        · exact Except.noConfusion hj
        · split at hj
          · exact Except.noConfusion hj
          · exact ih _ _ _ _ _ _ _ _ hj
      · split at hj
        · split at hj
          · exact Except.noConfusion hj
          · cases hj
            rfl
        · cases hj
          rfl
    · exact Except.noConfusion hj

theorem parseNumber_present (src : List Nat) (i : Nat) (e : JsonElement) (j : Nat)
    (hj : parseNumber src i = .ok (e, j)) : allPresent e = true := by
  rw [parseNumber] at hj
  split at hj
  · split at hj
    · exact Except.noConfusion hj
    · exact parseNumberLoop_present src _ _ _ _ _ _ _ _ _ hj
  · split at hj
    · exact Except.noConfusion hj
    · exact parseNumberLoop_present src _ _ _ _ _ _ _ _ _ hj

/-- Both container loops return trees all of whose nodes are present, as long
as the already-accumulated payload is all-present. -/
theorem loops_present (src : List Nat) :
    ∀ fuel,
      (∀ mark object key i e j,
        allPresentEntries object = true →
        parseObjectLoop src fuel mark object key i = .ok (e, j) →
        allPresent e = true) ∧
      (∀ mark array i e j,
        allPresentElems array = true →
        parseArrayLoop src fuel mark array i = .ok (e, j) →
        allPresent e = true) := by
  intro fuel
  induction fuel with
  | zero =>
    exact ⟨fun _ _ _ _ _ _ _ h => Except.noConfusion h,
           fun _ _ _ _ _ _ h => Except.noConfusion h⟩
  | succ fuel ih =>
    obtain ⟨ihO, ihA⟩ := ih
    constructor
    · intro mark object key i e j hobj hj
      rw [parseObjectLoop.eq_def] at hj
      simp only [] at hj
      by_cases hlen : i < src.length
      · rw [if_pos hlen] at hj
        cases key with
        | none =>
          simp only [] at hj
          by_cases h1 : byteAt src i = 32 ∨ byteAt src i = 44
          · rw [if_pos h1] at hj
            exact ihO _ _ _ _ _ _ hobj hj
          · rw [if_neg h1] at hj
            by_cases h2 : byteAt src i = 34
            · rw [if_pos h2] at hj
              cases hx : parseString src i with
              | error e' =>
                rw [hx] at hj
                exact Except.noConfusion hj
              | ok p =>
                obtain ⟨el, j'⟩ := p
                rw [hx] at hj
                exact ihO _ _ _ _ _ _ hobj hj
            · rw [if_neg h2] at hj
              by_cases h3 : byteAt src i = 125
              · rw [if_pos h3] at hj
                cases hj
                simp [JsonElement.from_object, allPresent, allPresentObj,
                  allPresentArr, hobj]
              · rw [if_neg h3] at hj
                exact Except.noConfusion hj
        | some k =>
          simp only [] at hj
          by_cases h1 : byteAt src i = 32 ∨ byteAt src i = 58
          · rw [if_pos h1] at hj
            exact ihO _ _ _ _ _ _ hobj hj
          · rw [if_neg h1] at hj
            by_cases h2 : byteAt src i = 110
            · rw [if_pos h2] at hj
              cases hx : parseNull src i with
              | error e' =>
                rw [hx] at hj
                exact Except.noConfusion hj
              | ok p =>
                obtain ⟨el, j'⟩ := p
                rw [hx] at hj
                exact ihO _ _ _ _ _ _
                  (allPresent_mapInsert _ _ _ hobj (parseNull_present src i el j' hx)) hj
            · rw [if_neg h2] at hj
              by_cases h3 : byteAt src i = 116
              · rw [if_pos h3] at hj
                cases hx : parseTrue src i with
                | error e' =>
                  rw [hx] at hj
                  exact Except.noConfusion hj
                | ok p =>
                  obtain ⟨el, j'⟩ := p
                  rw [hx] at hj
                  exact ihO _ _ _ _ _ _
                    (allPresent_mapInsert _ _ _ hobj (parseTrue_present src i el j' hx)) hj
              · rw [if_neg h3] at hj
                by_cases h4 : byteAt src i = 102
                · rw [if_pos h4] at hj
                  cases hx : parseFalse src i with
                  | error e' =>
                    rw [hx] at hj
                    exact Except.noConfusion hj
                  | ok p =>
                    obtain ⟨el, j'⟩ := p
                    rw [hx] at hj
                    exact ihO _ _ _ _ _ _
                      (allPresent_mapInsert _ _ _ hobj (parseFalse_present src i el j' hx)) hj
                · rw [if_neg h4] at hj
                  by_cases h5 : byteAt src i = 45 ∨ (48 ≤ byteAt src i ∧ byteAt src i ≤ 57)
                  · rw [if_pos h5] at hj
                    cases hx : parseNumber src i with
                    | error e' =>
                      rw [hx] at hj
                      exact Except.noConfusion hj
                    | ok p =>
                      obtain ⟨el, j'⟩ := p
                      rw [hx] at hj
                      exact ihO _ _ _ _ _ _
                        (allPresent_mapInsert _ _ _ hobj (parseNumber_present src i el j' hx)) hj
                  · rw [if_neg h5] at hj
                    by_cases h6 : byteAt src i = 34
                    · rw [if_pos h6] at hj
                      cases hx : parseString src i with
                      | error e' =>
                        rw [hx] at hj
                        exact Except.noConfusion hj
                      | ok p =>
                        obtain ⟨el, j'⟩ := p
                        rw [hx] at hj
                        exact ihO _ _ _ _ _ _
                          (allPresent_mapInsert _ _ _ hobj (parseString_present src i el j' hx)) hj
                    · rw [if_neg h6] at hj
                      by_cases h7 : byteAt src i = 123
                      · rw [if_pos h7] at hj
                        cases hx : parseObjectLoop src fuel i [] none (i + 1) with
                        | error e' =>
                          rw [hx] at hj
                          exact Except.noConfusion hj
                        | ok p =>
                          obtain ⟨el, j'⟩ := p
                          rw [hx] at hj
                          have hel := ihO i [] none (i + 1) el j' rfl hx
                          exact ihO _ _ _ _ _ _
                            (allPresent_mapInsert _ _ _ hobj hel) hj
                      · rw [if_neg h7] at hj
                        by_cases h8 : byteAt src i = 91
                        · rw [if_pos h8] at hj
                          cases hx : parseArrayLoop src fuel i [] (i + 1) with
                          | error e' =>
                            rw [hx] at hj
                            exact Except.noConfusion hj
                          | ok p =>
                            obtain ⟨el, j'⟩ := p
                            rw [hx] at hj
                            have hel := ihA i [] (i + 1) el j' rfl hx
                            exact ihO _ _ _ _ _ _
                              (allPresent_mapInsert _ _ _ hobj hel) hj
                        · rw [if_neg h8] at hj
                          exact Except.noConfusion hj
      · rw [if_neg hlen] at hj
        exact Except.noConfusion hj
    · intro mark array i e j harr hj
      rw [parseArrayLoop.eq_def] at hj
      simp only [] at hj
      by_cases hlen : i < src.length
      · rw [if_pos hlen] at hj
        by_cases h1 : byteAt src i = 32 ∨ byteAt src i = 44
        · rw [if_pos h1] at hj
          exact ihA _ _ _ _ _ harr hj
        · rw [if_neg h1] at hj
          by_cases h2 : byteAt src i = 110
          · rw [if_pos h2] at hj
            cases hx : parseNull src i with
            | error e' =>
              rw [hx] at hj
              exact Except.noConfusion hj
            | ok p =>
              obtain ⟨el, j'⟩ := p
              rw [hx] at hj
              exact ihA _ _ _ _ _
                (allPresentElems_push _ _ harr (parseNull_present src i el j' hx)) hj
          · rw [if_neg h2] at hj
            by_cases h3 : byteAt src i = 116
            · rw [if_pos h3] at hj
              cases hx : parseTrue src i with
              | error e' =>
                rw [hx] at hj
                exact Except.noConfusion hj
              | ok p =>
                obtain ⟨el, j'⟩ := p
                rw [hx] at hj
                exact ihA _ _ _ _ _
                  (allPresentElems_push _ _ harr (parseTrue_present src i el j' hx)) hj
            · rw [if_neg h3] at hj
              by_cases h4 : byteAt src i = 102
              · rw [if_pos h4] at hj
                cases hx : parseFalse src i with
                | error e' =>
                  rw [hx] at hj
                  exact Except.noConfusion hj
                | ok p =>
                  obtain ⟨el, j'⟩ := p
                  rw [hx] at hj
                  exact ihA _ _ _ _ _
                    (allPresentElems_push _ _ harr (parseFalse_present src i el j' hx)) hj
              · rw [if_neg h4] at hj
                by_cases h5 : byteAt src i = 45 ∨ (48 ≤ byteAt src i ∧ byteAt src i ≤ 57)
                · rw [if_pos h5] at hj
                  cases hx : parseNumber src i with
                  | error e' =>
                    rw [hx] at hj
                    exact Except.noConfusion hj
                  | ok p =>
                    obtain ⟨el, j'⟩ := p
                    rw [hx] at hj
                    exact ihA _ _ _ _ _
                      (allPresentElems_push _ _ harr (parseNumber_present src i el j' hx)) hj
                · rw [if_neg h5] at hj
                  by_cases h6 : byteAt src i = 34
                  · rw [if_pos h6] at hj
                    cases hx : parseString src i with
                    | error e' =>
                      rw [hx] at hj
                      exact Except.noConfusion hj
                    | ok p =>
                      obtain ⟨el, j'⟩ := p
                      rw [hx] at hj
                      exact ihA _ _ _ _ _
                        (allPresentElems_push _ _ harr (parseString_present src i el j' hx)) hj
                  · rw [if_neg h6] at hj
                    by_cases h7 : byteAt src i = 123
                    · rw [if_pos h7] at hj
                      cases hx : parseObjectLoop src fuel i [] none (i + 1) with
                      | error e' =>
                        rw [hx] at hj
                        exact Except.noConfusion hj
                      | ok p =>
                        obtain ⟨el, j'⟩ := p
                        rw [hx] at hj
                        have hel := ihO i [] none (i + 1) el j' rfl hx
                        exact ihA _ _ _ _ _ (allPresentElems_push _ _ harr hel) hj
                    · rw [if_neg h7] at hj
                      by_cases h8 : byteAt src i = 91
                      · rw [if_pos h8] at hj
                        cases hx : parseArrayLoop src fuel i [] (i + 1) with
                        | error e' =>
                          rw [hx] at hj
                          exact Except.noConfusion hj
                        | ok p =>
                          obtain ⟨el, j'⟩ := p
                          rw [hx] at hj
                          have hel := ihA i [] (i + 1) el j' rfl hx
                          exact ihA _ _ _ _ _ (allPresentElems_push _ _ harr hel) hj
                      · rw [if_neg h8] at hj
                        by_cases h9 : byteAt src i = 93
                        · rw [if_pos h9] at hj
                          cases hj
                          simp [JsonElement.from_array, allPresent, allPresentObj,
                            allPresentArr, harr]
                        · rw [if_neg h9] at hj
                          exact Except.noConfusion hj
      · rw [if_neg hlen] at hj
        exact Except.noConfusion hj

/-- Under the table preconditions neither container loop ever reaches the
table-lookup panic. -/
theorem loops_no_panic (src : List Nat) (hf : FracOK src) (he : ExpOK src) :
    ∀ fuel,
      (∀ mark object key i,
        parseObjectLoop src fuel mark object key i ≠ .error .panicOOB) ∧
      (∀ mark array i,
        parseArrayLoop src fuel mark array i ≠ .error .panicOOB) := by
  intro fuel
  induction fuel with
  | zero =>
    exact ⟨fun _ _ _ _ h => PErr.noConfusion (Except.error.inj h),
           fun _ _ _ h => PErr.noConfusion (Except.error.inj h)⟩
  | succ fuel ih =>
    obtain ⟨ihO, ihA⟩ := ih
    constructor
    · intro mark object key i h
      rw [parseObjectLoop.eq_def] at h
      simp only [] at h
      by_cases hlen : i < src.length
      · rw [if_pos hlen] at h
        cases key with
        | none =>
          simp only [] at h
          by_cases h1 : byteAt src i = 32 ∨ byteAt src i = 44
          · rw [if_pos h1] at h
            exact ihO _ _ _ _ h
          · rw [if_neg h1] at h
            by_cases h2 : byteAt src i = 34
            · rw [if_pos h2] at h
              cases hx : parseString src i with
              | error e' =>
                rw [hx] at h
                cases h
                exact parseString_no_panic src i hx
              | ok p =>
                obtain ⟨el, j'⟩ := p
                rw [hx] at h
                exact ihO _ _ _ _ h
            · rw [if_neg h2] at h
              by_cases h3 : byteAt src i = 125
              · rw [if_pos h3] at h
                exact Except.noConfusion h
              · rw [if_neg h3] at h
                exact PErr.noConfusion (Except.error.inj h)
        | some k =>
          simp only [] at h
          by_cases h1 : byteAt src i = 32 ∨ byteAt src i = 58
          · rw [if_pos h1] at h
            exact ihO _ _ _ _ h
          · rw [if_neg h1] at h
            by_cases h2 : byteAt src i = 110
            · rw [if_pos h2] at h
              cases hx : parseNull src i with
              | error e' =>
                rw [hx] at h
                cases h
                exact parseNull_no_panic src i hx
              | ok p =>
                obtain ⟨el, j'⟩ := p
                rw [hx] at h
                exact ihO _ _ _ _ h
            · rw [if_neg h2] at h
              by_cases h3 : byteAt src i = 116
              · rw [if_pos h3] at h
                cases hx : parseTrue src i with
                | error e' =>
                  rw [hx] at h
                  cases h
                  exact parseTrue_no_panic src i hx
                | ok p =>
                  obtain ⟨el, j'⟩ := p
                  rw [hx] at h
                  exact ihO _ _ _ _ h
              · rw [if_neg h3] at h
                by_cases h4 : byteAt src i = 102
                · rw [if_pos h4] at h
                  cases hx : parseFalse src i with
                  | error e' =>
                    rw [hx] at h
                    cases h
                    exact parseFalse_no_panic src i hx
                  | ok p =>
                    obtain ⟨el, j'⟩ := p
                    rw [hx] at h
                    exact ihO _ _ _ _ h
                · rw [if_neg h4] at h
                  by_cases h5 : byteAt src i = 45 ∨ (48 ≤ byteAt src i ∧ byteAt src i ≤ 57)
                  · rw [if_pos h5] at h
                    cases hx : parseNumber src i with
                    | error e' =>
                      rw [hx] at h
                      cases h
                      exact parseNumber_no_panic src hf he i hx
                    | ok p =>
                      obtain ⟨el, j'⟩ := p
                      rw [hx] at h
                      exact ihO _ _ _ _ h
                  · rw [if_neg h5] at h
                    by_cases h6 : byteAt src i = 34
                    · rw [if_pos h6] at h
                      cases hx : parseString src i with
                      | error e' =>
                        rw [hx] at h
                        cases h
                        exact parseString_no_panic src i hx
                      | ok p =>
                        obtain ⟨el, j'⟩ := p
                        rw [hx] at h
                        exact ihO _ _ _ _ h
                    · rw [if_neg h6] at h
                      by_cases h7 : byteAt src i = 123
                      · rw [if_pos h7] at h
                        cases hx : parseObjectLoop src fuel i [] none (i + 1) with
                        | error e' =>
                          rw [hx] at h
                          cases h
                          exact ihO _ _ _ _ hx
                        | ok p =>
                          obtain ⟨el, j'⟩ := p
                          rw [hx] at h
                          exact ihO _ _ _ _ h
                      · rw [if_neg h7] at h
                        by_cases h8 : byteAt src i = 91
                        · rw [if_pos h8] at h
                          cases hx : parseArrayLoop src fuel i [] (i + 1) with
                          | error e' =>
                            rw [hx] at h
                            cases h
                            exact ihA _ _ _ hx
                          | ok p =>
                            obtain ⟨el, j'⟩ := p
                            rw [hx] at h
                            exact ihO _ _ _ _ h
                        · rw [if_neg h8] at h
                          exact PErr.noConfusion (Except.error.inj h)
      · rw [if_neg hlen] at h
        exact PErr.noConfusion (Except.error.inj h)
    · intro mark array i h
      rw [parseArrayLoop.eq_def] at h
      simp only [] at h
      by_cases hlen : i < src.length
      · rw [if_pos hlen] at h
        by_cases h1 : byteAt src i = 32 ∨ byteAt src i = 44
        · rw [if_pos h1] at h
          exact ihA _ _ _ h
        · rw [if_neg h1] at h
          by_cases h2 : byteAt src i = 110
          · rw [if_pos h2] at h
            cases hx : parseNull src i with
            | error e' =>
              rw [hx] at h
              cases h
              exact parseNull_no_panic src i hx
            | ok p =>
              obtain ⟨el, j'⟩ := p
              rw [hx] at h
              exact ihA _ _ _ h
          · rw [if_neg h2] at h
            by_cases h3 : byteAt src i = 116
            · rw [if_pos h3] at h
              cases hx : parseTrue src i with
              | error e' =>
                rw [hx] at h
                cases h
                exact parseTrue_no_panic src i hx
              | ok p =>
                obtain ⟨el, j'⟩ := p
                rw [hx] at h
                exact ihA _ _ _ h
            · rw [if_neg h3] at h
              by_cases h4 : byteAt src i = 102
              · rw [if_pos h4] at h
                cases hx : parseFalse src i with
                | error e' =>
                  rw [hx] at h
                  cases h
                  exact parseFalse_no_panic src i hx
                | ok p =>
                  obtain ⟨el, j'⟩ := p
                  rw [hx] at h
                  exact ihA _ _ _ h
              · rw [if_neg h4] at h
                by_cases h5 : byteAt src i = 45 ∨ (48 ≤ byteAt src i ∧ byteAt src i ≤ 57)
                · rw [if_pos h5] at h
                  cases hx : parseNumber src i with
                  | error e' =>
                    rw [hx] at h
                    cases h
                    exact parseNumber_no_panic src hf he i hx
                  | ok p =>
                    obtain ⟨el, j'⟩ := p
                    rw [hx] at h
                    exact ihA _ _ _ h
                · rw [if_neg h5] at h
                  by_cases h6 : byteAt src i = 34
                  · rw [if_pos h6] at h
                    cases hx : parseString src i with
                    | error e' =>
                      rw [hx] at h
                      cases h
                      exact parseString_no_panic src i hx
                    | ok p =>
                      obtain ⟨el, j'⟩ := p
                      rw [hx] at h
                      exact ihA _ _ _ h
                  · rw [if_neg h6] at h
                    by_cases h7 : byteAt src i = 123
                    · rw [if_pos h7] at h
                      cases hx : parseObjectLoop src fuel i [] none (i + 1) with
                      | error e' =>
                        rw [hx] at h
                        cases h
                        exact ihO _ _ _ _ hx
                      | ok p =>
                        obtain ⟨el, j'⟩ := p
                        rw [hx] at h
                        exact ihA _ _ _ h
                    · rw [if_neg h7] at h
                      by_cases h8 : byteAt src i = 91
                      · rw [if_pos h8] at h
                        cases hx : parseArrayLoop src fuel i [] (i + 1) with
                        | error e' =>
                          rw [hx] at h
                          cases h
                          exact ihA _ _ _ hx
                        | ok p =>
                          obtain ⟨el, j'⟩ := p
                          rw [hx] at h
                          exact ihA _ _ _ h
                      · rw [if_neg h8] at h
                        by_cases h9 : byteAt src i = 93
                        · rw [if_pos h9] at h
                          exact Except.noConfusion h
                        · rw [if_neg h9] at h
                          exact PErr.noConfusion (Except.error.inj h)
      · rw [if_neg hlen] at h
        exact PErr.noConfusion (Except.error.inj h)

/-- Under the table preconditions the whole parse never panics. -/
theorem parse_no_panic_of (src : List Nat) (hf : FracOK src) (he : ExpOK src) :
    parse src ≠ .error .panicOOB := by
  intro h
  rw [parse] at h
  cases hp : parseTopLoop src (2 * src.length + 2) (src.length + 1) 0 with
  | error e' =>
    rw [hp] at h
    cases h
    revert hp
    generalize (2 * src.length + 2) = fuel
    generalize (src.length + 1) = skipFuel
    generalize 0 = i
    intro hp
    induction skipFuel generalizing i with
    | zero => exact PErr.noConfusion (Except.error.inj hp)
    | succ skipFuel ih =>
      rw [parseTopLoop] at hp
      split at hp
      · split at hp
        · exact ih _ hp
        · split at hp
          · rw [parseObject] at hp
            exact (loops_no_panic src hf he fuel).1 _ _ _ _ hp
          · split at hp
            · rw [parseArray] at hp
              exact (loops_no_panic src hf he fuel).2 _ _ _ hp
            · exact PErr.noConfusion (Except.error.inj hp)
      · exact PErr.noConfusion (Except.error.inj hp)
  | ok p =>
    rw [hp] at h
    exact Except.noConfusion h

/-- Skipping a block of space bytes in the top-level loop. -/
theorem parseTopLoop_skip (src : List Nat) (fuel : Nat) :
    ∀ d (i skipFuel : Nat),
      (∀ k, i ≤ k → k < i + d → byteAt src k = 32) →
      i + d ≤ src.length →
      d ≤ skipFuel →
      parseTopLoop src fuel skipFuel i
        = parseTopLoop src fuel (skipFuel - d) (i + d) := by
  intro d
  induction d with
  | zero =>
    intro i skipFuel _ _ _
    rfl
  | succ d ih =>
    intro i skipFuel hsp hle hfu
    cases skipFuel with
    | zero => omega
    | succ s =>
      rw [parseTopLoop]
      rw [if_pos (by omega), if_pos (hsp i (by omega) (by omega))]
      have := ih (i + 1) s (fun k hk₁ hk₂ => hsp k (by omega) (by omega))
        (by omega) (by omega)
      rw [this]
      congr 1
      all_goals omega

/-- A successful `parse` returns a tree with no empty node anywhere. -/
theorem parse_present (src : List Nat) (e : JsonElement)
    (h : parse src = .ok e) : allPresent e = true := by
  rw [parse] at h
  cases hp : parseTopLoop src (2 * src.length + 2) (src.length + 1) 0 with
  | error e' =>
    rw [hp] at h
    exact Except.noConfusion h
  | ok p =>
    obtain ⟨el, j⟩ := p
    rw [hp] at h
    cases h
    revert hp
    generalize (2 * src.length + 2) = fuel
    generalize (src.length + 1) = skipFuel
    generalize 0 = i
    intro hp
    induction skipFuel generalizing i with
    | zero => exact Except.noConfusion hp
    | succ skipFuel ih =>
      rw [parseTopLoop] at hp
      split at hp
      · split at hp
        · exact ih _ hp
        · split at hp
          · rw [parseObject] at hp
            exact (loops_present src fuel).1 i [] none (i + 1) el j rfl hp
          · split at hp
            · rw [parseArray] at hp
              exact (loops_present src fuel).2 i [] (i + 1) el j rfl hp
            · exact Except.noConfusion hp
      · exact Except.noConfusion hp

/-! ## Claims -/

theorem lookupOne_empty (l : Lookup) : lookupOne JsonElement.empty l = JsonElement.empty := by
  cases l <;> rfl

/-- C1: key lookup (`value[key]`) on a non-object and index lookup
(`value[i]`) on a non-array return the `EMPTY_ELEMENT` sentinel; so do a
missing key on an object and an out-of-bounds index on an array; the sentinel
propagates through every chain of lookups; `exists()` on it is `false` and
`as_i128` on it is `none`. -/
theorem c1_absent_lookup (e : JsonElement) (k : List Nat) (n : Nat) (p : List Lookup) :
    (e.json_type ≠ .JsonObject → e.indexKey k = .empty) ∧
    (∀ o, e.object = some o → mapGet o k = none → e.indexKey k = .empty) ∧
    (e.json_type ≠ .JsonArray → e.indexNat n = .empty) ∧
    (∀ a, e.array = some a → a.length ≤ n → e.indexNat n = .empty) ∧
    lookupPath JsonElement.empty p = JsonElement.empty ∧
    JsonElement.empty.exists_ = false ∧
    JsonElement.empty.as_i128 = none := by
  cases e with
  | mk t s b num ob arr0 =>
    refine ⟨?_, ?_, ?_, ?_, ?_, rfl, rfl⟩
    · intro hne
      cases t <;> first | rfl | exact absurd rfl hne
    · intro o ho hnone
      simp only [JsonElement.object] at ho
      cases t <;> try rfl
      show (mapGet (ob.getD []) k).getD .empty = .empty
      rw [ho, Option.getD_some, hnone]
      rfl
    · intro hne
      cases t <;> first | rfl | exact absurd rfl hne
    · intro a ha hlen
      simp only [JsonElement.array] at ha
      cases t <;> try rfl
      show ((arr0.getD []).get? n).getD .empty = .empty
      rw [ha, Option.getD_some, List.get?_eq_none.mpr hlen]
      rfl
    · induction p with
      | nil => rfl
      | cons hd tl ih =>
        rw [lookupPath, List.foldl_cons, lookupOne_empty]
        exact ih

/-- C1 witness: concrete lookups on concrete elements. -/
theorem c1_witness :
    (JsonElement.from_boolean true ⟨[], 0, 0⟩).indexKey [97] = .empty ∧
    (JsonElement.from_object [] ⟨[], 0, 0⟩).indexKey [97] = .empty ∧
    (JsonElement.from_boolean true ⟨[], 0, 0⟩).indexNat 0 = .empty ∧
    (JsonElement.from_array [] ⟨[], 0, 0⟩).indexNat 3 = .empty ∧
    lookupPath JsonElement.empty [.key [120], .idx 0, .key [121]] = JsonElement.empty ∧
    JsonElement.empty.exists_ = false ∧
    JsonElement.empty.as_i128 = none := by
  refine ⟨?_, ?_, ?_, ?_, ?_, ?_, ?_⟩
  · exact (c1_absent_lookup _ [97] 0 []).1 (by decide)
  · exact (c1_absent_lookup _ [97] 0 []).2.1 [] rfl rfl
  · exact (c1_absent_lookup _ [] 0 []).2.2.1 (by decide)
  · exact (c1_absent_lookup _ [] 3 []).2.2.2.1 [] rfl (by decide)
  · exact (c1_absent_lookup JsonElement.empty [] 0 [.key [120], .idx 0, .key [121]]).2.2.2.2.1
  · exact (c1_absent_lookup JsonElement.empty [] 0 []).2.2.2.2.2.1
  · exact (c1_absent_lookup JsonElement.empty [] 0 []).2.2.2.2.2.2

/-- C2 counterexample: the input `{"a":1,}` — a trailing comma with no
following entry — parses successfully, not with a failure as claimed: in
key-scanning position a `,` is skipped exactly like a space. -/
theorem c2_counterexample :
    PRes.isOk (parse [123, 34, 97, 34, 58, 49, 44, 125]) = true :=
  rfl

/-- C2 amended: in key-scanning position a `,` is skipped exactly like a
space, so `{"a":1,}` (trailing comma, no following entry) parses successfully
to an object with `a ↦ 1`, and even `{,}` (a comma with no preceding entry)
parses to an empty object; a `,` in value position — after a pending key, as
in `{"a":,1}` — still fails at the comma's offset. -/
theorem c2_amended :
    (parse [123, 34, 97, 34, 58, 49, 44, 125]).toOption.map
        (fun e => ((e.indexKey [97]).as_i128, e.json_type))
      = some (some 1, .JsonObject) ∧
    (parse [123, 44, 125]).toOption.map (fun e => (e.json_type, e.object))
      = some (.JsonObject, some []) ∧
    parse [123, 34, 97, 34, 58, 44, 49, 125] = .error (.jsonErr 5) :=
  ⟨rfl, rfl, rfl⟩

/-- C3 counterexample: scanning the string literal `"a\"b"` (bytes
`34 97 92 34 98 34`), the scan terminates at the quote at index 3 even though
it is immediately preceded by a backslash — the returned span is `a\`
(indices 1..3) and the cursor stops at 4, not at the final quote. -/
theorem c3_counterexample :
    parseString [34, 97, 92, 34, 98, 34] 0
      = .ok (JsonElement.from_string ⟨[34, 97, 92, 34, 98, 34], 1, 3⟩, 4) ∧
    Slice.str ⟨[34, 97, 92, 34, 98, 34], 1, 3⟩ = [97, 92] :=
  ⟨rfl, rfl⟩

/-- C3 amended: the string scan stops at the first `"` byte after the opening
quote, with no lookback at all — an escaped quote also terminates it; the
span excludes the surrounding quotes, and with no quote left the parse fails
at end of input. -/
theorem c3_scan_stops_at_any_quote (src : List Nat) (i : Nat) (h : i < src.length) :
    parseString src i =
      match findQuote src (i + 1) with
      | some j => .ok (JsonElement.from_string ⟨src, i + 1, j + 1 - 1⟩, j + 1)
      | none => .error (.jsonErr src.length) :=
  parseString_spec src i h

/-- C3 witness: the scan of `"ab"` from index 0. -/
theorem c3_witness :
    0 < ([34, 97, 98, 34] : List Nat).length ∧
    parseString [34, 97, 98, 34] 0 =
      match findQuote [34, 97, 98, 34] (0 + 1) with
      | some j => .ok (JsonElement.from_string ⟨[34, 97, 98, 34], 0 + 1, j + 1 - 1⟩, j + 1)
      | none => .error (.jsonErr ([34, 97, 98, 34] : List Nat).length) :=
  ⟨by decide, c3_scan_stops_at_any_quote [34, 97, 98, 34] 0 (by decide)⟩

/-- C4 counterexample: the object entry `{"a" 1}` has no `:` between key and
value, yet `parse` succeeds (with `a ↦ 1`) instead of failing as claimed. -/
theorem c4_counterexample :
    PRes.isOk (parse [123, 34, 97, 34, 32, 49, 125]) = true :=
  rfl

/-- C4 amended: after a key's closing quote the object loop unconditionally
skips one byte, then skips any spaces and `:` bytes; the entry's value may
follow with no `:` at all (`{"a" 1}` parses with `a ↦ 1`), while `{"a"1}`
fails at offset 5 only because the value's first byte was consumed by the
unconditional skip. -/
theorem c4_amended :
    (parse [123, 34, 97, 34, 32, 49, 125]).toOption.map
        (fun e => ((e.indexKey [97]).as_i128, e.json_type))
      = some (some 1, .JsonObject) ∧
    parse [123, 34, 97, 34, 49, 125] = .error (.jsonErr 5) :=
  ⟨rfl, rfl⟩

/-- C5 counterexample: an input whose `{` is preceded by a single tab is
claimed to parse successfully; in fact `parse` fails at offset 0, because the
top-level loop skips only space bytes, never tabs, CRs or LFs. -/
theorem c5_counterexample :
    parse [9, 123, 125] = .error (.jsonErr 0) :=
  rfl

/-- C5 amended: `parse` skips only space bytes (byte 32).  At the first
non-space byte it dispatches: `{` enters the object production, `[` the array
production, and every other byte — including tab, CR and LF — is a failure at
that offset. -/
theorem c5_amended (src : List Nat) (j : Nat)
    (hsp : ∀ k, k < j → byteAt src k = 32)
    (hj : j < src.length)
    (hns : byteAt src j ≠ 32) :
    parse src =
      if byteAt src j = 123 then
        (parseObject src (2 * src.length + 2) j).map (fun p => p.1)
      else if byteAt src j = 91 then
        (parseArray src (2 * src.length + 2) j).map (fun p => p.1)
      else
        .error (.jsonErr j) := by
  rw [parse]
  rw [parseTopLoop_skip src (2 * src.length + 2) j 0 (src.length + 1)
    (fun k _ hk => hsp k (by omega)) (by omega) (by omega)]
  have hs : src.length + 1 - j = (src.length - j) + 1 := by omega
  rw [Nat.zero_add, hs, parseTopLoop, if_pos hj, if_neg hns]
  by_cases h123 : byteAt src j = 123
  · rw [if_pos h123, if_pos h123]
  · rw [if_neg h123, if_neg h123]
    by_cases h91 : byteAt src j = 91
    · rw [if_pos h91, if_pos h91]
    · rw [if_neg h91, if_neg h91]
      rfl

/-- C5 witness: a single leading space before `{}` is skipped and the object
production is entered at offset 1. -/
theorem c5_witness :
    parse [32, 123, 125]
      = (parseObject [32, 123, 125] 8 1).map (fun p => p.1) := by
  have h := c5_amended [32, 123, 125] 1
    (fun k hk => by
      have hk0 : k = 0 := by omega
      subst hk0
      rfl)
    (by decide) (by decide)
  exact h.trans rfl

/-- C6 counterexample: the numeric literals `1.` (fraction with zero digits)
and `1e` (exponent with zero digits), each followed by `}`, are claimed to be
failures; both parse successfully. -/
theorem c6_counterexample :
    PRes.isOk (parseNumber [49, 46, 125] 0) = true ∧
    PRes.isOk (parseNumber [49, 101, 125] 0) = true :=
  ⟨rfl, rfl⟩

/-- C6 amended: a fraction with zero digits contributes nothing (the dot
multiplier becomes `EXP_MATRIX[1][0]`) and the literal still parses, tagged
float, mantissa unchanged; an exponent with zero digits multiplies by
`EXP_MATRIX[0][0]` and parses; the number production fails only when the scan
reaches end of input, as for `1.` at the end of the buffer. -/
theorem c6_amended :
    (parseNumber [49, 46, 125] 0).toOption.map
        (fun p => (p.1.number.map (fun n => (n.num_i128, n.detected_type)), p.2))
      = some (some (1, .Float), 2) ∧
    (parseNumber [49, 101, 125] 0).toOption.map
        (fun p => (p.1.number.map (fun n => (n.num_i128, n.detected_type)), p.2))
      = some (some (1, .Float), 2) ∧
    parseNumber [49, 46] 0 = .error (.jsonErr 2) :=
  ⟨rfl, rfl, rfl⟩

/-- C7 counterexample: for the literal `1.5` the claim requires the stored
mantissa to be the digit concatenation 15; the parser stores 1, the value of
the integer part alone. -/
theorem c7_counterexample :
    (parseNumber [49, 46, 53, 125] 0).toOption.map
        (fun p => p.1.number.map (fun n => n.num_i128))
      = some (some 1) :=
  rfl

/-- C7 amended: a successfully parsed numeric literal stores as mantissa the
sign-applied value of its integer-part digit run only — fractional digits are
never concatenated into it — provided the digit accumulation stays within
`i128`; integer-valued literals therefore recover their exact value. -/
theorem c7_mantissa_integer_part (src : List Nat) (i : Nat) (e : JsonElement)
    (j : Nat) (hj : parseNumber src i = .ok (e, j)) :
    (byteAt src i = 45 →
      10 * digitsVal (digitsAt src (i + 1)) < 2 ^ 127 →
      e.number.map Number.num_i128 = some (-(digitsVal (digitsAt src (i + 1))))) ∧
    (byteAt src i ≠ 45 →
      10 * digitsVal (digitsAt src i) < 2 ^ 127 →
      e.number.map Number.num_i128 = some (digitsVal (digitsAt src i))) :=
  parseNumber_mantissa src i e j hj

/-- C7 witness: the literal `12` (then `}`) stores mantissa 12, the decimal
value of its digit run. -/
theorem c7_witness :
    byteAt [49, 50, 125] 0 ≠ 45 ∧
    10 * digitsVal (digitsAt [49, 50, 125] 0) < 2 ^ 127 ∧
    (okPair (parseNumber [49, 50, 125] 0)).number.map Number.num_i128
      = some (digitsVal (digitsAt [49, 50, 125] 0)) := by
  refine ⟨by decide, by decide, ?_⟩
  have h : parseNumber [49, 50, 125] 0 = .ok (okPair (parseNumber [49, 50, 125] 0), 2) :=
    rfl
  exact (c7_mantissa_integer_part [49, 50, 125] 0 _ 2 h).2 (by decide) (by decide)

/-- C8 counterexample: `as_str` on a boolean element returns the slice text,
not `none` as the claim requires for every non-string variant. -/
theorem c8_counterexample :
    (JsonElement.from_boolean true ⟨[116, 114, 117, 101], 0, 4⟩).as_str
      = some [116, 114, 117, 101] :=
  rfl

/-- C8 amended: `as_str` returns `none` only on the Absent sentinel; on every
other variant (null, boolean, number, object, array, string alike) it returns
the element's source span text.  `as_i128` and `as_f64` do behave as claimed:
`none` on every non-number variant, the sentinel included. -/
theorem c8_as_str_any_present (e : JsonElement) :
    (e.json_type = .JsonEmpty → e.as_str = none) ∧
    (e.json_type ≠ .JsonEmpty → e.as_str = some e.slice.str) ∧
    (e.json_type ≠ .JsonNumber → e.as_i128 = none ∧ e.as_f64 = none) := by
  cases e with
  | mk t s b num ob arr0 =>
    refine ⟨?_, ?_, ?_⟩
    · intro h
      cases t <;> first | rfl | exact JsonType.noConfusion h
    · intro h
      cases t <;> first | rfl | exact absurd rfl h
    · intro h
      cases t <;> first | exact ⟨rfl, rfl⟩ | exact absurd rfl h

/-- C8 witness: the three behaviours at concrete elements. -/
theorem c8_witness :
    JsonElement.empty.as_str = none ∧
    (JsonElement.from_null ⟨[110, 117, 108, 108], 0, 4⟩).as_str
      = some (Slice.str ⟨[110, 117, 108, 108], 0, 4⟩) ∧
    (JsonElement.from_boolean true ⟨[], 0, 0⟩).as_i128 = none := by
  refine ⟨?_, ?_, ?_⟩
  · exact (c8_as_str_any_present JsonElement.empty).1 rfl
  · exact (c8_as_str_any_present (JsonElement.from_null ⟨[110, 117, 108, 108], 0, 4⟩)).2.1
      (by decide)
  · exact ((c8_as_str_any_present (JsonElement.from_boolean true ⟨[], 0, 0⟩)).2.2
      (by decide)).1

/-- C9: when every fractional digit run has at most 64 digits and every
scanned exponent value is at most 64, every `EXP_MATRIX` lookup along the
parse is in range 0..=64, so the out-of-bounds (panic) branch of the table
indexing is unreachable: `parse` never returns the panic outcome. -/
theorem c9_no_table_panic (src : List Nat)
    (hf : fracOKb src = true) (he : expOKb src = true) :
    parse src ≠ .error .panicOOB :=
  parse_no_panic_of src (fracOKb_spec src hf) (expOKb_spec src he)

/-- C9 witness: the input `{"a":1.5e2}` satisfies both table preconditions
and its parse cannot panic. -/
theorem c9_witness :
    fracOKb [123, 34, 97, 34, 58, 49, 46, 53, 101, 50, 125] = true ∧
    expOKb [123, 34, 97, 34, 58, 49, 46, 53, 101, 50, 125] = true ∧
    parse [123, 34, 97, 34, 58, 49, 46, 53, 101, 50, 125] ≠ .error .panicOOB :=
  ⟨by decide, by decide,
    c9_no_table_panic [123, 34, 97, 34, 58, 49, 46, 53, 101, 50, 125]
      (by decide) (by decide)⟩

/-- C10: every value in a successful parse result — the root and every node
reachable through object entries and array elements — carries a tag other
than the empty one, so `exists()` is true on the root (and, by `allPresent`,
on every reachable node); the sentinel can only arise from failed lookups. -/
theorem c10_parse_all_present (src : List Nat) (e : JsonElement)
    (h : parse src = .ok e) :
    allPresent e = true ∧ e.exists_ = true := by
  have hp := parse_present src e h
  refine ⟨hp, ?_⟩
  cases e with
  | mk t s b num ob arr0 =>
    rw [allPresent] at hp
    simp only [Bool.and_eq_true] at hp
    exact hp.1.1

/-- C10 witness: the parse of `{}`. -/
theorem c10_witness :
    parse [123, 125] = .ok (okElem (parse [123, 125])) ∧
    allPresent (okElem (parse [123, 125])) = true ∧
    (okElem (parse [123, 125])).exists_ = true := by
  have h : parse [123, 125] = .ok (okElem (parse [123, 125])) := rfl
  have hc := c10_parse_all_present [123, 125] _ h
  exact ⟨h, hc.1, hc.2⟩

end Jsonic
